import Mathlib

/-!
Verification of the melusina-static-store aggregation-and-chunked-publishing
pipeline, shallowly embedded from `build-store.sh` and `make-publish.sh`.

Conventions of the embedding:
  - JSON values are the inductive `JVal`; a parsed `metadata.json` is an
    association list `Jobj` that keeps key insertion order, matching python
    dicts (`json.load` preserves document order, assignment to an existing key
    keeps its position, assignment to a new key appends).
  - A bundle directory is the structure `Bundle`: the parse result of its
    `metadata.json` (`none` models a file that is not valid JSON), the
    presence and bytes of `icon.svg` and `icon.png`, the presence and byte
    size of `app.spk`, the contents of an optional `description.md`, and the
    file listing of an optional `screenshots/` directory.  Byte strings are
    `List Nat`.
  - Hash commands (`md5sum`, `sha256sum`) are abstract parameters of type
    `List Nat -> String`; the scripts only ever compare and record their hex
    digests.
  - Machine integers do not overflow in the modelled ranges (bash arithmetic
    is 64 bit; all counters and sizes stay far below that), so `Nat` is used
    directly.
  - Python statements that raise an uncaught exception make the enclosing
    `$( ... )` substitution fail, and `set -euo pipefail` then aborts the
    whole script; such points are modelled by `Option`, `none` meaning the
    run dies at that statement.
-/

namespace MelusinaStore

/-- JSON values as produced by `json.load`.  Floats are carried as rationals;
only their truncation and truthiness are ever inspected by the scripts. -/
inductive JVal where
  | jnull : JVal
  | jbool : Bool → JVal
  | jint : Int → JVal
  | jfloat : Rat → JVal
  | jstr : String → JVal
  | jarr : List JVal → JVal
  | jobj : List (String × JVal) → JVal

/-- A parsed JSON object: an insertion-ordered association list. -/
abbrev Jobj := List (String × JVal)

/-- One `packages/<developer>/<repo>/<app>/` directory as the scripts see it. -/
structure Bundle where
  /-- Full path of the directory; used only in log messages. -/
  dirPath : String
  /-- Basename of the directory; the walk skips names starting with a dot. -/
  dirName : String
  /-- Whether `metadata.json` exists in the directory. -/
  hasMetadata : Bool
  /-- Parse result of `metadata.json`; `none` models invalid JSON. -/
  rawMeta : Option Jobj
  hasIconSvg : Bool
  hasIconPng : Bool
  svgBytes : List Nat
  pngBytes : List Nat
  hasSpk : Bool
  spkSize : Nat
  /-- `some txt` iff `description.md` exists, with its raw contents. -/
  descriptionMd : Option String
  hasScreenshotsDir : Bool
  /-- Listing of the `screenshots/` directory (filenames). -/
  screenshotFiles : List String

/-- `MAX_SPK_SIZE` in build-store.sh: 95 * 1024 * 1024. -/
def MAX_SPK_SIZE : Nat := 95 * 1024 * 1024

/-- `MAX_FILE_SIZE` in make-publish.sh: 95 * 1024 * 1024. -/
def MAX_FILE_SIZE : Nat := 95 * 1024 * 1024

/-- `RELEASES_BASE` in build-store.sh. -/
def RELEASES_BASE : String :=
  "https://github.com/hrbrlife/melusina-static-store/releases/download/packages-v1"

/-- `REQUIRED_FIELDS` in build-store.sh, in array order. -/
def REQUIRED_FIELDS : List String :=
  ["appId", "name", "version", "versionNumber", "packageId", "shortDescription",
   "categories", "isOpenSource", "webLink", "codeLink", "upstreamAuthor", "createdAt"]

/-- The author subfields filled in by the normalizer. -/
def AUTHOR_KEYS : List String :=
  ["name", "githubUsername", "keybaseUsername", "twitterUsername", "picture"]

/-- Python `str.strip()`: drop leading and trailing whitespace.  (Defined on
the character list so that it evaluates inside the kernel; `String.trim`
reduces to the same characters but is built on substring loops the kernel
cannot unfold.) -/
def trimStr (s : String) : String :=
  ⟨((s.data.dropWhile Char.isWhitespace).reverse.dropWhile Char.isWhitespace).reverse⟩

/-- Python `str.lower()` on the ASCII range the scripts compare. -/
def lowerStr (s : String) : String :=
  ⟨s.data.map Char.toLower⟩

/-- Python `str.endswith(p)`. -/
def strEndsWith (s p : String) : Bool :=
  s.data.drop (s.data.length - p.data.length) == p.data

/-- Bash `[[ name == .* ]]` and python `str.startswith(p)`. -/
def strStartsWith (s p : String) : Bool :=
  s.data.take p.data.length == p.data

/-- Lexicographic comparison of strings by code point, as python `sorted`
orders them. -/
def lexLe : List Char → List Char → Bool
  | [], _ => true
  | _ :: _, [] => false
  | a :: as, b :: bs => if a = b then lexLe as bs else decide (a < b)

/-- One required-field check of `validate_metadata`: the field is present, and
if its value is a string it is non-empty after stripping, except `codeLink`
which may be the empty string. -/
def fieldOk (m : Jobj) (field : String) : Bool :=
  match m.lookup field with
  | none => false
  | some (JVal.jstr s) => field == "codeLink" || trimStr s != ""
  | some _ => true

/-- The author check of `validate_metadata`: `d.get("author", \x7b\x7d)` must be a
dict whose `name` entry is a string that strips to non-empty (a non-string
`name` raises in `a[f].strip()`, which the shell counts as a failure). -/
def authorOk (m : Jobj) : Bool :=
  match (m.lookup "author").getD (JVal.jobj []) with
  | JVal.jobj a =>
    match a.lookup "name" with
    | some (JVal.jstr s) => trimStr s != ""
    | _ => false
  | _ => false

/-- The per-field error line emitted by `validate_metadata`. -/
def fieldErr (b : Bundle) (field : String) : String :=
  b.dirPath ++ ": missing or empty required field " ++ field

/-- `validate_metadata` of build-store.sh as the list of `fail` lines it
emits, in emission order.  An unparseable `metadata.json` yields exactly one
error and skips every later check (`return 1`); otherwise each failing
required field, a failing author check, and a missing icon each append one
line.  A missing `app.spk` is only a warning and contributes nothing.  The
shell treats the bundle as valid iff this list is empty (the function returns
the error count, at most 14, so the mod-256 return status is zero iff the
count is zero). -/
def validate_metadata (b : Bundle) : List String :=
  match b.rawMeta with
  | none => [b.dirPath ++ ": metadata.json is not valid JSON"]
  | some m =>
    ((REQUIRED_FIELDS.filter (fun f => !fieldOk m f)).map (fieldErr b))
      ++ (if authorOk m then [] else [b.dirPath ++ ": missing or empty author.name"])
      ++ (if b.hasIconSvg || b.hasIconPng then []
          else [b.dirPath ++ ": no icon.svg or icon.png found"])

/-- Icon selection of build-store.sh lines 183-189: `icon.svg` wins over
`icon.png`; the bytes and the extension of the chosen file. -/
def chooseIcon (b : Bundle) : Option (List Nat × String) :=
  if b.hasIconSvg then some (b.svgBytes, "svg")
  else if b.hasIconPng then some (b.pngBytes, "png")
  else none

/-- `image_id` derivation of build-store.sh lines 191-197: the hex digest of
the chosen icon bytes, a dot, and the extension; empty when no icon exists.
`md5` abstracts the `md5sum | cut` invocation. -/
def image_id (md5 : List Nat → String) (b : Bundle) : String :=
  match chooseIcon b with
  | some (bytes, ext) => md5 bytes ++ "." ++ ext
  | none => ""

/-- Python truthiness of a JSON value (`if not x`). -/
def truthy : JVal → Bool
  | JVal.jnull => false
  | JVal.jbool b => b
  | JVal.jint n => n != 0
  | JVal.jfloat q => q != 0
  | JVal.jstr s => s != ""
  | JVal.jarr l => !l.isEmpty
  | JVal.jobj l => !l.isEmpty

/-- Python iteration over a JSON value: lists yield their elements, strings
their one-character substrings, dicts their keys; numbers, booleans and null
raise a TypeError (`none`). -/
def pyIter : JVal → Option (List JVal)
  | JVal.jarr l => some l
  | JVal.jstr s => some (s.data.map (fun c => JVal.jstr (String.singleton c)))
  | JVal.jobj l => some (l.map (fun kv => JVal.jstr kv.1))
  | _ => none

/-- Python dict assignment `m[k] = v` on an insertion-ordered assoc list:
update in place if the key exists, else append. -/
def setKey (m : Jobj) (k : String) (v : JVal) : Jobj :=
  if (m.lookup k).isSome then
    m.map (fun kv => if kv.1 == k then (k, v) else kv)
  else m ++ [(k, v)]

/-- Python `m.setdefault(k, v)`. -/
def setDefault (m : Jobj) (k : String) (v : JVal) : Jobj :=
  if (m.lookup k).isSome then m else m ++ [(k, v)]

/-- Normalizer step: fill every missing author subfield with the empty
string.  `author.setdefault` raises when the author value is not a dict;
the validator has gated on that for the bundles this runs on. -/
def normAuthor (m : Jobj) : Option Jobj :=
  match (m.lookup "author").getD (JVal.jobj []) with
  | JVal.jobj a =>
    some (setKey m "author"
      (JVal.jobj (AUTHOR_KEYS.foldl (fun acc k => setDefault acc k (JVal.jstr "")) a)))
  | _ => none

/-- Normalizer step: coerce `categories` to `[]` unless it is already a list. -/
def normCategories (m : Jobj) : Jobj :=
  match m.lookup "categories" with
  | some (JVal.jarr _) => m
  | _ => setKey m "categories" (JVal.jarr [])

/-- Normalizer step: inject the shell-computed `imageId`. -/
def normImageId (imgId : String) (m : Jobj) : Jobj :=
  setKey m "imageId" (JVal.jstr imgId)

/-- Python `int(q)` on a float: truncation toward zero. -/
def pyTrunc (q : Rat) : Int :=
  if 0 ≤ q then q.floor else q.ceil

/-- Normalizer step: coerce a float `createdAt` to an integer. -/
def normCreatedAt (m : Jobj) : Jobj :=
  match m.lookup "createdAt" with
  | some (JVal.jfloat q) => setKey m "createdAt" (JVal.jint (pyTrunc q))
  | _ => m

/-- Normalizer step, build-store.sh lines 227-230: when `app.spk` exists and
its size strictly exceeds `MAX_SPK_SIZE`, set
`packageUrl = RELEASES_BASE + "/" + m.get("packageId", "")`.  String
concatenation with a non-string `packageId` raises. -/
def normPackageUrl (b : Bundle) (m : Jobj) : Option Jobj :=
  if b.hasSpk ∧ MAX_SPK_SIZE < b.spkSize then
    match (m.lookup "packageId").getD (JVal.jstr "") with
    | JVal.jstr pid =>
      some (setKey m "packageUrl" (JVal.jstr (RELEASES_BASE ++ "/" ++ pid)))
    | _ => none
  else some m

/-- Normalizer step: default `description` to the empty string, then fall
back to the stripped contents of `description.md` when still falsy. -/
def normDescription (b : Bundle) (m : Jobj) : Jobj :=
  if truthy (((setDefault m "description" (JVal.jstr "")).lookup "description").getD JVal.jnull)
  then setDefault m "description" (JVal.jstr "")
  else
    match b.descriptionMd with
    | some txt =>
      setKey (setDefault m "description" (JVal.jstr "")) "description" (JVal.jstr (trimStr txt))
    | none => setDefault m "description" (JVal.jstr "")

/-- The screenshot filename filter: lowercased name ends in a recognized
image extension. -/
def imgExtOk (f : String) : Bool :=
  [".png", ".jpg", ".jpeg", ".gif", ".webp"].any (fun e => strEndsWith (lowerStr f) e)

/-- Insertion step of the alphabetical sort used for screenshot discovery. -/
def insertStr (f : String) : List String → List String
  | [] => [f]
  | g :: gs => if lexLe f.data g.data then f :: g :: gs else g :: insertStr f gs

/-- Python `sorted` on strings (ascending). -/
def sortStrings (l : List String) : List String :=
  l.foldr insertStr []

/-- Screenshot entry normalization: bare strings become url/caption objects,
anything else passes through unchanged. -/
def wrapShot : JVal → JVal
  | JVal.jstr s => JVal.jobj [("url", JVal.jstr s), ("caption", JVal.jstr "")]
  | v => v

/-- Normalizer step, build-store.sh lines 240-255: when `screenshots` is
absent or falsy, auto-discover from the `screenshots/` directory (image
files, alphabetically sorted, empty captions) or set `[]`; otherwise iterate
the present value and wrap bare strings.  Iterating a truthy non-iterable
value (a non-zero number or `true`) raises a TypeError. -/
def normScreenshots (b : Bundle) (m : Jobj) : Option Jobj :=
  if (m.lookup "screenshots").isNone || !truthy ((m.lookup "screenshots").getD JVal.jnull) then
    if b.hasScreenshotsDir then
      some (setKey m "screenshots" (JVal.jarr
        ((sortStrings (b.screenshotFiles.filter imgExtOk)).map
          (fun f => JVal.jobj
            [("url", JVal.jstr ("screenshots/" ++ f)), ("caption", JVal.jstr "")]))))
    else some (setKey m "screenshots" (JVal.jarr []))
  else
    match pyIter ((m.lookup "screenshots").getD JVal.jnull) with
    | some elems => some (setKey m "screenshots" (JVal.jarr (elems.map wrapShot)))
    | none => none

/-- The `json_entry` python block of build-store.sh lines 200-258: the
canonical record of one validated bundle, or `none` when the block raises
(which aborts the whole script).  The steps run in source order. -/
def normalize (md5 : List Nat → String) (b : Bundle) : Option Jobj :=
  match b.rawMeta with
  | none => none
  | some m => do
    let m1 ← normAuthor m
    let m2 := normCategories m1
    let m3 := normImageId (image_id md5 b) m2
    let m4 := normCreatedAt m3
    let m5 ← normPackageUrl b m4
    let m6 := normDescription b m5
    normScreenshots b m6

mutual

/-- `json.dumps(v, separators=(",", ":"))`: the compact, insertion-ordered
serialization the normalizer prints.  String escaping is abstracted; key
order is the assoc-list order. -/
def serialize : JVal → String
  | JVal.jnull => "null"
  | JVal.jbool true => "true"
  | JVal.jbool false => "false"
  | JVal.jint n => toString n
  | JVal.jfloat q => toString q
  | JVal.jstr s => "\"" ++ s ++ "\""
  | JVal.jarr xs => "[" ++ serializeList xs ++ "]"
  | JVal.jobj kvs => "\x7b" ++ serializeObj kvs ++ "\x7d"

def serializeList : List JVal → String
  | [] => ""
  | [x] => serialize x
  | x :: y :: xs => serialize x ++ "," ++ serializeList (y :: xs)

def serializeObj : List (String × JVal) → String
  | [] => ""
  | [(k, v)] => "\"" ++ k ++ "\":" ++ serialize v
  | (k, v) :: kv :: kvs => "\"" ++ k ++ "\":" ++ serialize v ++ "," ++ serializeObj (kv :: kvs)

end

/-- The canonical JSON line the scan appends to the collected catalog file
for one valid bundle. -/
def serializedRecord (md5 : List Nat → String) (b : Bundle) : Option String :=
  (normalize md5 b).map (fun r => serialize (JVal.jobj r))

/-- All bundle fields except the directory path and name: what "the bundle
directory contents" means for the purity claim. -/
def bundleContents (b : Bundle) :
    Bool × Option Jobj × Bool × Bool × List Nat × List Nat ×
      Bool × Nat × Option String × Bool × List String :=
  (b.hasMetadata, b.rawMeta, b.hasIconSvg, b.hasIconPng, b.svgBytes,
   b.pngBytes, b.hasSpk, b.spkSize, b.descriptionMd, b.hasScreenshotsDir,
   b.screenshotFiles)

/-- A directory is a counted candidate iff it is not hidden and holds a
`metadata.json` (build-store.sh lines 164-174). -/
def isCandidate (b : Bundle) : Bool :=
  !(strStartsWith b.dirName ".") && b.hasMetadata

/-- The global scan counters and the collected catalog lines. -/
structure ScanState where
  total : Nat
  valid : Nat
  errors : Nat
  entries : List Jobj

/-- One iteration of the metadata walk (build-store.sh lines 162-264):
skip hidden directories and directories without `metadata.json`; otherwise
count the bundle, and either validate it, normalize it and collect its
record, or count an error.  `none` models the script dying inside the
normalizer command substitution. -/
def scanBundle (md5 : List Nat → String) (st : ScanState) (b : Bundle) : Option ScanState :=
  if !isCandidate b then some st
  else
    let st1 : ScanState := { st with total := st.total + 1 }
    if validate_metadata b = [] then
      match normalize md5 b with
      | some r =>
        some { st1 with valid := st1.valid + 1, entries := st1.entries ++ [r] }
      | none => none
    else some { st1 with errors := st1.errors + 1 }

/-- The app-directory loop of the walk. -/
def scanApps (md5 : List Nat → String) (st : ScanState) : List Bundle → Option ScanState
  | [] => some st
  | b :: bs =>
    match scanBundle md5 st b with
    | some st2 => scanApps md5 st2 bs
    | none => none

/-- The repo-directory loop of the walk. -/
def scanRepos (md5 : List Nat → String) (st : ScanState) : List (List Bundle) → Option ScanState
  | [] => some st
  | r :: rs =>
    match scanApps md5 st r with
    | some st2 => scanRepos md5 st2 rs
    | none => none

/-- The developer-directory loop of the walk. -/
def scanTree (md5 : List Nat → String) (st : ScanState) :
    List (List (List Bundle)) → Option ScanState
  | [] => some st
  | d :: ds =>
    match scanRepos md5 st d with
    | some st2 => scanTree md5 st2 ds
    | none => none

/-- The whole metadata scan from zeroed counters. -/
def runScan (md5 : List Nat → String) (tree : List (List (List Bundle))) : Option ScanState :=
  scanTree md5 ⟨0, 0, 0, []⟩ tree

/-- Candidate count of one app list. -/
def countApps (bs : List Bundle) : Nat := bs.countP isCandidate

/-- Candidate count of one developer directory. -/
def countRepos (rs : List (List Bundle)) : Nat := (rs.map countApps).sum

/-- Candidate count of the whole tree. -/
def countTree (t : List (List (List Bundle))) : Nat := (t.map countRepos).sum

/-- The sort key `a.get("name", "").lower()`; a present non-string `name`
raises AttributeError on `.lower()`. -/
def nameKeyOf (m : Jobj) : Option String :=
  match (m.lookup "name").getD (JVal.jstr "") with
  | JVal.jstr s => some (lowerStr s)
  | _ => none

/-- Insertion step of the catalog sort. -/
def insertKeyed (p : String × Jobj) : List (String × Jobj) → List (String × Jobj)
  | [] => [p]
  | q :: qs => if lexLe p.1.data q.1.data then p :: q :: qs else q :: insertKeyed p qs

/-- `apps.sort(key=lambda a: a.get("name", "").lower())`: `none` when any
key computation raises, otherwise the records in key order. -/
def sortCatalog (apps : List Jobj) : Option (List Jobj) := do
  let keyed ← apps.mapM (fun a => (nameKeyOf a).map (fun k => (k, a)))
  pure ((keyed.foldr insertKeyed []).map Prod.snd)

/-- Inputs of one build-store.sh run that the modelled claims depend on. -/
structure BuildInput where
  /-- Whether `packages/` exists before the run (lines 144-147 create it
  when absent, before any mode check). -/
  packagesDirExists : Bool
  tree : List (List (List Bundle))
  dryRun : Bool
  aggregateOnly : Bool
  /-- Whether a prebuilt `dist/` directory exists for step 3. -/
  distExists : Bool

/-- Externally observable outcome of one build-store.sh run. -/
structure BuildResult where
  exitCode : Nat
  /-- Whether the run created the `packages/` directory. -/
  createdPackagesDir : Bool
  wroteSrcAppsJson : Bool
  wroteIndexJson : Bool
  /-- Contents written to `src/apps.json` (when written). -/
  srcCatalog : List Jobj
  /-- Contents written to `apps/index.json` (when written). -/
  indexCatalog : List Jobj

/-- build-store.sh end to end, at the granularity of the claims: create
`packages/` when absent; scan; abort with status 1 when the scan dies or
`ERRORS > 0`; stop with status 0 after validation in dry-run mode; otherwise
write `src/apps.json` (unless aggregate-only), require `dist/`, and write
`apps/index.json`.  The Vite build, asset copying and the sandstorm update
packaging have no bearing on the modelled observables and are elided. -/
def buildStore (md5 : List Nat → String) (inp : BuildInput) : BuildResult :=
  let created := !inp.packagesDirExists
  match runScan md5 inp.tree with
  | none => ⟨1, created, false, false, [], []⟩
  | some st =>
    if 0 < st.errors then ⟨1, created, false, false, [], []⟩
    else if inp.dryRun then ⟨0, created, false, false, [], []⟩
    else
      match (if inp.aggregateOnly then some (false, ([] : List Jobj))
             else (sortCatalog st.entries).map (fun c => (true, c))) with
      | none => ⟨1, created, false, false, [], []⟩
      | some (ws, sc) =>
        if !inp.distExists then ⟨1, created, ws, false, sc, []⟩
        else
          match sortCatalog st.entries with
          | none => ⟨1, created, ws, false, sc, []⟩
          | some ic => ⟨0, created, ws, true, sc, ic⟩

/-- The SPK copy gate of build-store.sh lines 367-376: when `app.spk` exists
it is copied into the local packages directory under the name `packageId`,
unless its size strictly exceeds `MAX_SPK_SIZE`, in which case only a warning
is printed and nothing is copied. -/
def collectSpk (b : Bundle) (pid : String) : Option String :=
  if b.hasSpk then
    (if MAX_SPK_SIZE < b.spkSize then none else some pid)
  else none

/-- Worker of `chunksOf`, structurally recursive on a fuel that bounds the
number of remaining bytes (each step strips at least one byte when the chunk
size is positive, so the fuel never runs out on the guarded calls). -/
def chunksGo (C : Nat) : Nat → List Nat → List (List Nat)
  | _, [] => []
  | 0, _ :: _ => []
  | fuel + 1, x :: xs => (x :: xs).take C :: chunksGo C fuel ((x :: xs).drop C)

/-- Fixed-size byte-range chunking: successive `take C` slices, the last one
possibly shorter; `split --bytes=C` on an empty input emits no files. -/
def chunksOf (C : Nat) (bs : List Nat) : List (List Nat) :=
  if C = 0 then [] else chunksGo C bs.length bs

/-- The chunk length profile of `chunksOf` as a function of the input length
alone. -/
def chunkLens (C S : Nat) : List Nat :=
  if C = 0 ∨ S = 0 then []
  else min C S :: chunkLens C (S - C)
termination_by S
decreasing_by omega

/-- Two-digit zero-padded numeric suffix (`--numeric-suffixes=0
--suffix-length=2`). -/
def pad2 (i : Nat) : String :=
  if i < 10 then "0" ++ toString i else toString i

/-- One `parts` entry of the split manifest. -/
structure PartEntry where
  file : String
  sha256 : String
  size : Nat

/-- The `.parts.json` manifest of make-publish.sh lines 222-229. -/
structure SplitManifest where
  originalFile : String
  originalSha256 : String
  originalSize : Nat
  parts : List PartEntry

/-- Phase 4b of make-publish.sh for one oversized file: record the sha256 and
size of the original, split it into `C`-byte chunks named
`<name>.part<NN>` with two-digit numeric suffixes from 00, delete the
original, and emit the manifest listing every chunk in numeric order with its
sha256 and size.  With an explicit two-digit suffix length GNU split dies
when the chunks would outnumber the 100 available suffixes (`none`). -/
def splitFile (sha : List Nat → String) (C : Nat) (name : String) (bs : List Nat) :
    Option (List (String × List Nat) × SplitManifest) :=
  let cs := chunksOf C bs
  if 100 < cs.length then none
  else
    let files := cs.enum.map (fun ic => (name ++ ".part" ++ pad2 ic.1, ic.2))
    some (files,
      { originalFile := name
        originalSha256 := sha bs
        originalSize := bs.length
        parts := files.map (fun fc => ⟨fc.1, sha fc.2, fc.2.length⟩) })

/-- One file of the assembled publish tree as phase 4d sees it. -/
structure PubFile where
  path : String
  size : Nat
  /-- Whether the file lives under `./.git/` (excluded by the find). -/
  underGit : Bool

/-- The offending files of the verification walk: every file outside `.git/`
whose size strictly exceeds `MAX_FILE_SIZE`, in walk order. -/
def oversizedOf (files : List PubFile) : List PubFile :=
  files.filter (fun f => !f.underGit && decide (MAX_FILE_SIZE < f.size))

/-- Outcome of phases 4d-4e of make-publish.sh. -/
structure VerifyResult where
  exitCode : Nat
  /-- The `fail` lines: each offending file with its size. -/
  reported : List (String × Nat)
  committed : Bool
  pushed : Bool

/-- Phases 4d-4e of make-publish.sh: re-walk the staged publish tree
(excluding `.git/`); when any file still exceeds `MAX_FILE_SIZE`, list every
such file with its size and abort with status 1 before `git add`; otherwise
proceed to commit (when anything changed) and push (unless dry-run). -/
def publishVerify (dryRun : Bool) (files : List PubFile) (hasChanges : Bool) : VerifyResult :=
  if 0 < (oversizedOf files).length then
    ⟨1, (oversizedOf files).map (fun f => (f.path, f.size)), false, false⟩
  else
    ⟨0, [], hasChanges, hasChanges && !dryRun⟩

/-- Frame condition for the screenshot step: the `screenshots` value, when
present and truthy, is iterable (a list, a string or an object).  The
validator never checks this; it is exactly what keeps the normalizer from
raising in its screenshot loop. -/
def screenshotsSafe (m : Jobj) : Bool :=
  match m.lookup "screenshots" with
  | none => true
  | some v => !truthy v || (pyIter v).isSome

/-- Frame condition for the packageUrl step: whenever an oversized `app.spk`
makes the normalizer build a URL, the `packageId` value it concatenates is a
string.  The validator only checks presence and string-non-emptiness, not
that the value is a string. -/
def packageIdSafe (b : Bundle) (m : Jobj) : Bool :=
  !(b.hasSpk && decide (MAX_SPK_SIZE < b.spkSize)) ||
    (match (m.lookup "packageId").getD (JVal.jstr "") with
     | JVal.jstr _ => true
     | _ => false)

/-- A concrete stand-in for `md5sum`: digests only ever flow into string
comparisons.  (Injective on the inputs the witnesses use.) -/
def md5W : List Nat → String := fun bs => toString bs.length

/-- A concrete metadata object satisfying every validator check. -/
def metaW : Jobj :=
  [("appId", JVal.jstr "a"), ("name", JVal.jstr "n"), ("version", JVal.jstr "1"),
   ("versionNumber", JVal.jint 1), ("packageId", JVal.jstr "p"),
   ("shortDescription", JVal.jstr "s"), ("categories", JVal.jarr []),
   ("isOpenSource", JVal.jbool true), ("webLink", JVal.jstr "w"),
   ("codeLink", JVal.jstr ""), ("upstreamAuthor", JVal.jstr "u"),
   ("createdAt", JVal.jint 0), ("author", JVal.jobj [("name", JVal.jstr "A")])]

/-- A concrete fully valid bundle. -/
def bundleW : Bundle :=
  { dirPath := "packages/d/r/app"
    dirName := "app"
    hasMetadata := true
    rawMeta := some metaW
    hasIconSvg := true
    hasIconPng := false
    svgBytes := [0]
    pngBytes := []
    hasSpk := true
    spkSize := 7
    descriptionMd := none
    hasScreenshotsDir := false
    screenshotFiles := [] }

/-- `bundleW` with an `app.spk` one byte over the threshold. -/
def bundleBig : Bundle :=
  { bundleW with spkSize := MAX_SPK_SIZE + 1 }

/-- A bundle that passes validation but carries `"screenshots": true` in its
metadata: the screenshot loop of the normalizer raises a TypeError on it. -/
def bundleShots : Bundle :=
  { bundleW with rawMeta := some (metaW ++ [("screenshots", JVal.jbool true)]) }

/-- A bundle whose `metadata.json` does not parse. -/
def bundleNoParse : Bundle :=
  { bundleW with rawMeta := none }

/-- `metaW` with the two required fields `appId` and `name` removed. -/
def metaMiss : Jobj := metaW.drop 2

/-- A bundle missing two distinct required fields. -/
def bundleMiss : Bundle :=
  { bundleW with rawMeta := some metaMiss }

/-- `bundleW` with identical contents at a different directory. -/
def bundleW2 : Bundle :=
  { bundleW with
    dirPath := "packages/other/place/app2"
    dirName := "app2" }

/-- `bundleW` with a different icon byte sequence. -/
def bundleY : Bundle :=
  { bundleW with svgBytes := [1, 2] }

/-- `bundleW` with a png icon present next to the svg one. -/
def bundleBoth : Bundle :=
  { bundleW with hasIconPng := true, pngBytes := [7] }

/-- A hidden directory (skipped by the walk even though metadata exists). -/
def bundleHidden : Bundle :=
  { bundleW with dirName := ".git" }

/-- A directory without a `metadata.json` (skipped silently). -/
def bundleNoMeta : Bundle :=
  { bundleW with hasMetadata := false }

/-- A concrete scan tree: one valid bundle, one missing two fields, one
hidden directory and one directory without metadata. -/
def scanTreeW : List (List (List Bundle)) :=
  [[[bundleW, bundleMiss, bundleHidden, bundleNoMeta]]]

/-! ### Helper lemmas -/

theorem strApp_cancel_left {a x y : String} (h : a ++ x = a ++ y) : x = y := by
  apply String.ext
  have hd : a.data ++ x.data = a.data ++ y.data := by
    rw [← String.data_append, ← String.data_append, h]
  exact List.append_cancel_left hd

theorem strApp_cancel_right {a b s : String} (h : a ++ s = b ++ s) : a = b := by
  apply String.ext
  have hd : a.data ++ s.data = b.data ++ s.data := by
    rw [← String.data_append, ← String.data_append, h]
  exact List.append_cancel_right hd

theorem lookup_cons_ite {β : Type} (q a : String) (v : β) (es : List (String × β)) :
    List.lookup q ((a, v) :: es) = if q = a then some v else List.lookup q es := by
  cases h : q == a <;> simp [List.lookup_cons, h] <;> simp_all

theorem lookup_mapSet {m : Jobj} {k : String} (v : JVal)
    (hk : (m.lookup k).isSome) :
    List.lookup k (m.map (fun kv => if kv.1 == k then (k, v) else kv)) = some v := by
  induction m with
  | nil => simp [List.lookup] at hk
  | cons kv rest ih =>
    obtain ⟨a, b⟩ := kv
    by_cases hak : a = k
    · subst hak
      simp [lookup_cons_ite]
    · have hne : (a == k) = false := by simp [hak]
      rw [lookup_cons_ite] at hk
      simp only [List.map_cons, hne, if_neg (by simp [hak] : ¬((a, b).1 == k) = true)]
      rw [lookup_cons_ite] at *
      rw [if_neg (fun he => hak he.symm)] at hk ⊢
      · exact ih hk

theorem lookup_mapSet_ne {m : Jobj} {k q : String} (v : JVal) (hqk : q ≠ k) :
    List.lookup q (m.map (fun kv => if kv.1 == k then (k, v) else kv)) = m.lookup q := by
  induction m with
  | nil => simp
  | cons kv rest ih =>
    obtain ⟨a, b⟩ := kv
    by_cases hak : a = k
    · subst hak
      simp only [List.map_cons, if_pos (by simp : ((a, b).1 == a) = true)]
      rw [lookup_cons_ite, lookup_cons_ite, if_neg hqk, if_neg hqk]
      exact ih
    · simp only [List.map_cons, if_neg (by simp [hak] : ¬((a, b).1 == k) = true)]
      rw [lookup_cons_ite, lookup_cons_ite]
      by_cases hqa : q = a
      · simp [hqa]
      · rw [if_neg hqa, if_neg hqa]
        exact ih

theorem lookup_append_right {β : Type} (q : String) (m tail : List (String × β))
    (hq : m.lookup q = none) :
    List.lookup q (m ++ tail) = tail.lookup q := by
  induction m with
  | nil => simp
  | cons kv rest ih =>
    obtain ⟨a, b⟩ := kv
    rw [lookup_cons_ite] at hq
    by_cases hqa : q = a
    · simp [hqa] at hq
    · rw [if_neg hqa] at hq
      rw [List.cons_append, lookup_cons_ite, if_neg hqa]
      exact ih hq

theorem lookup_append_left {β : Type} (q : String) (m tail : List (String × β))
    (hq : (m.lookup q).isSome) :
    List.lookup q (m ++ tail) = m.lookup q := by
  induction m with
  | nil => simp [List.lookup] at hq
  | cons kv rest ih =>
    obtain ⟨a, b⟩ := kv
    rw [List.cons_append, lookup_cons_ite, lookup_cons_ite]
    by_cases hqa : q = a
    · simp [hqa]
    · rw [if_neg hqa, if_neg hqa]
      rw [lookup_cons_ite, if_neg hqa] at hq
      exact ih hq

theorem lookup_setKey_self (m : Jobj) (k : String) (v : JVal) :
    (setKey m k v).lookup k = some v := by
  unfold setKey
  by_cases hk : (m.lookup k).isSome
  · rw [if_pos hk]
    exact lookup_mapSet v hk
  · rw [if_neg hk]
    have hnone : m.lookup k = none := by
      cases h : m.lookup k
      · rfl
      · simp [h] at hk
    rw [lookup_append_right k m _ hnone]
    simp [lookup_cons_ite]

theorem lookup_setKey_ne (m : Jobj) {k q : String} (v : JVal) (hqk : q ≠ k) :
    (setKey m k v).lookup q = m.lookup q := by
  unfold setKey
  by_cases hk : (m.lookup k).isSome
  · rw [if_pos hk]
    exact lookup_mapSet_ne v hqk
  · rw [if_neg hk]
    by_cases hq : (m.lookup q).isSome
    · exact lookup_append_left q m _ hq
    · have hnone : m.lookup q = none := by
        cases h : m.lookup q
        · rfl
        · simp [h] at hq
      rw [lookup_append_right q m _ hnone, hnone]
      simp [lookup_cons_ite, hqk]

theorem lookup_setDefault_ne (m : Jobj) {k q : String} (v : JVal) (hqk : q ≠ k) :
    (setDefault m k v).lookup q = m.lookup q := by
  unfold setDefault
  by_cases hk : (m.lookup k).isSome
  · rw [if_pos hk]
  · rw [if_neg hk]
    by_cases hq : (m.lookup q).isSome
    · exact lookup_append_left q m _ hq
    · have hnone : m.lookup q = none := by
        cases h : m.lookup q
        · rfl
        · simp [h] at hq
      rw [lookup_append_right q m _ hnone, hnone]
      simp [lookup_cons_ite, hqk]

theorem normAuthor_lookup {m m1 : Jobj} (h : normAuthor m = some m1)
    {q : String} (hq : q ≠ "author") : m1.lookup q = m.lookup q := by
  unfold normAuthor at h
  split at h
  · cases h
    exact lookup_setKey_ne m _ hq
  · cases h

theorem normCategories_lookup (m : Jobj) {q : String} (hq : q ≠ "categories") :
    (normCategories m).lookup q = m.lookup q := by
  unfold normCategories
  split
  · rfl
  · exact lookup_setKey_ne m _ hq

theorem normImageId_lookup (i : String) (m : Jobj) {q : String} (hq : q ≠ "imageId") :
    (normImageId i m).lookup q = m.lookup q := by
  unfold normImageId
  exact lookup_setKey_ne m _ hq

theorem normCreatedAt_lookup (m : Jobj) {q : String} (hq : q ≠ "createdAt") :
    (normCreatedAt m).lookup q = m.lookup q := by
  unfold normCreatedAt
  split
  · exact lookup_setKey_ne m _ hq
  · rfl

theorem normDescription_lookup (b : Bundle) (m : Jobj) {q : String}
    (hq : q ≠ "description") :
    (normDescription b m).lookup q = m.lookup q := by
  unfold normDescription
  have hd : (setDefault m "description" (JVal.jstr "")).lookup q = m.lookup q :=
    lookup_setDefault_ne m _ hq
  split
  · exact hd
  · split
    · rw [lookup_setKey_ne _ _ hq]
      exact hd
    · exact hd

theorem normScreenshots_lookup {b : Bundle} {m m1 : Jobj}
    (h : normScreenshots b m = some m1) {q : String} (hq : q ≠ "screenshots") :
    m1.lookup q = m.lookup q := by
  unfold normScreenshots at h
  split at h
  · split at h
    · cases h
      exact lookup_setKey_ne m _ hq
    · cases h
      exact lookup_setKey_ne m _ hq
  · split at h
    · cases h
      exact lookup_setKey_ne m _ hq
    · cases h

theorem normPackageUrl_pos {b : Bundle} {m : Jobj} {pid : String}
    (hs : b.hasSpk = true) (hsz : MAX_SPK_SIZE < b.spkSize)
    (hpid : m.lookup "packageId" = some (JVal.jstr pid)) :
    normPackageUrl b m =
      some (setKey m "packageUrl" (JVal.jstr (RELEASES_BASE ++ "/" ++ pid))) := by
  unfold normPackageUrl
  rw [if_pos ⟨hs, hsz⟩, hpid]
  rfl

theorem normPackageUrl_neg {b : Bundle} {m : Jobj}
    (h : ¬(b.hasSpk = true ∧ MAX_SPK_SIZE < b.spkSize)) :
    normPackageUrl b m = some m := by
  unfold normPackageUrl
  rw [if_neg h]

theorem normalize_decompose {md5 : List Nat → String} {b : Bundle} {m r : Jobj}
    (hm : b.rawMeta = some m) (h : normalize md5 b = some r) :
    ∃ m1 m5, normAuthor m = some m1 ∧
      normPackageUrl b (normCreatedAt (normImageId (image_id md5 b) (normCategories m1)))
        = some m5 ∧
      normScreenshots b (normDescription b m5) = some r := by
  simp only [normalize, hm] at h
  cases ha : normAuthor m with
  | none => simp only [ha, Option.bind_eq_bind, Option.none_bind] at h; simp at h
  | some m1 =>
    simp only [ha, Option.bind_eq_bind, Option.some_bind] at h
    cases hp : normPackageUrl b
        (normCreatedAt (normImageId (image_id md5 b) (normCategories m1))) with
    | none => simp only [hp, Option.none_bind] at h; simp at h
    | some m5 =>
      simp only [hp, Option.some_bind] at h
      exact ⟨m1, m5, rfl, hp, h⟩

theorem normPackageUrl_lookup {b : Bundle} {m m5 : Jobj}
    (h : normPackageUrl b m = some m5) {q : String} (hq : q ≠ "packageUrl") :
    m5.lookup q = m.lookup q := by
  unfold normPackageUrl at h
  split at h
  · split at h
    · cases h
      exact lookup_setKey_ne m _ hq
    · cases h
  · cases h
    rfl

theorem authorOk_of_valid {b : Bundle} {m : Jobj}
    (hm : b.rawMeta = some m) (hv : validate_metadata b = []) : authorOk m = true := by
  by_cases hao : authorOk m = true
  · exact hao
  · exfalso
    have hfoo : authorOk m = false := by simpa using hao
    simp [validate_metadata, hm, hfoo] at hv

theorem normAuthor_of_authorOk {m : Jobj} (h : authorOk m = true) :
    ∃ m1, normAuthor m = some m1 := by
  unfold authorOk at h
  split at h
  next a heq =>
    unfold normAuthor
    rw [heq]
    exact ⟨_, rfl⟩
  next => cases h

theorem normPackageUrl_of_safe {b : Bundle} {m m4 : Jobj}
    (hpk : packageIdSafe b m = true)
    (hsame : m4.lookup "packageId" = m.lookup "packageId") :
    ∃ m5, normPackageUrl b m4 = some m5 := by
  unfold packageIdSafe at hpk
  unfold normPackageUrl
  by_cases hc : b.hasSpk = true ∧ MAX_SPK_SIZE < b.spkSize
  · rw [if_pos hc]
    have hb : (b.hasSpk && decide (MAX_SPK_SIZE < b.spkSize)) = true := by
      simp [hc.1, hc.2]
    rw [hb] at hpk
    simp only [Bool.not_true, Bool.false_or] at hpk
    rw [hsame]
    split at hpk
    next s heq =>
      exact ⟨_, rfl⟩
    next => cases hpk
  · rw [if_neg hc]
    exact ⟨m4, rfl⟩

theorem normScreenshots_of_safe {b : Bundle} {m m6 : Jobj}
    (hss : screenshotsSafe m = true)
    (hsame : m6.lookup "screenshots" = m.lookup "screenshots") :
    ∃ r, normScreenshots b m6 = some r := by
  unfold screenshotsSafe at hss
  unfold normScreenshots
  rw [hsame]
  cases hcur : m.lookup "screenshots" with
  | none =>
    simp only [Option.isNone_none, Bool.true_or, if_true]
    split
    · exact ⟨_, rfl⟩
    · exact ⟨_, rfl⟩
  | some v =>
    rw [hcur] at hss
    by_cases ht : truthy v = true
    · have hit : (pyIter v).isSome = true := by
        simpa [ht] using hss
      have hcond : ((some v).isNone || !truthy ((some v).getD JVal.jnull)) = false := by
        simp [ht]
      rw [hcond]
      simp only [Bool.false_eq_true, if_false]
      cases hi : pyIter v with
      | none => rw [hi] at hit; simp at hit
      | some elems =>
        simp only [Option.getD_some, hi]
        exact ⟨_, rfl⟩
    · have hf : truthy v = false := by simpa using ht
      have hcond : ((some v).isNone || !truthy ((some v).getD JVal.jnull)) = true := by
        simp [hf]
      rw [hcond]
      simp only [if_true]
      split
      · exact ⟨_, rfl⟩
      · exact ⟨_, rfl⟩

theorem normalize_isSome {md5 : List Nat → String} {b : Bundle} {m : Jobj}
    (hm : b.rawMeta = some m) (hv : validate_metadata b = [])
    (hss : screenshotsSafe m = true) (hpk : packageIdSafe b m = true) :
    (normalize md5 b).isSome = true := by
  obtain ⟨m1, ha⟩ := normAuthor_of_authorOk (authorOk_of_valid hm hv)
  have hpid4 :
      (normCreatedAt (normImageId (image_id md5 b) (normCategories m1))).lookup "packageId"
        = m.lookup "packageId" := by
    rw [normCreatedAt_lookup _ (by decide), normImageId_lookup _ _ (by decide),
      normCategories_lookup _ (by decide), normAuthor_lookup ha (by decide)]
  obtain ⟨m5, hp⟩ := normPackageUrl_of_safe hpk hpid4
  have hss6 : (normDescription b m5).lookup "screenshots" = m.lookup "screenshots" := by
    rw [normDescription_lookup _ _ (by decide), normPackageUrl_lookup hp (by decide),
      normCreatedAt_lookup _ (by decide), normImageId_lookup _ _ (by decide),
      normCategories_lookup _ (by decide), normAuthor_lookup ha (by decide)]
  obtain ⟨r, hr⟩ := normScreenshots_of_safe (b := b) hss hss6
  have hfin : normalize md5 b = some r := by
    simp only [normalize, hm, ha, Option.bind_eq_bind, Option.some_bind, hp, hr]
  simp [hfin]

theorem chunksGo_flatten {C : Nat} (hC : 0 < C) :
    ∀ (fuel : Nat) (bs : List Nat), bs.length ≤ fuel → (chunksGo C fuel bs).flatten = bs := by
  intro fuel
  induction fuel with
  | zero =>
    intro bs h
    cases bs with
    | nil => rfl
    | cons x xs => simp at h
  | succ n ih =>
    intro bs h
    cases bs with
    | nil => rfl
    | cons x xs =>
      rw [chunksGo]
      simp only [List.flatten_cons]
      rw [ih ((x :: xs).drop C)
        (by simp only [List.length_drop, List.length_cons] at h ⊢; omega)]
      exact List.take_append_drop C (x :: xs)

theorem chunksOf_flatten {C : Nat} (hC : 0 < C) (bs : List Nat) :
    (chunksOf C bs).flatten = bs := by
  unfold chunksOf
  rw [if_neg (by omega)]
  exact chunksGo_flatten hC _ _ le_rfl

theorem chunksGo_lens {C : Nat} (hC : 0 < C) :
    ∀ (fuel : Nat) (bs : List Nat), bs.length ≤ fuel →
      (chunksGo C fuel bs).map List.length = chunkLens C bs.length := by
  intro fuel
  induction fuel with
  | zero =>
    intro bs h
    cases bs with
    | nil => rw [chunkLens]; simp [chunksGo]
    | cons x xs => simp at h
  | succ n ih =>
    intro bs h
    cases bs with
    | nil => rw [chunkLens]; simp [chunksGo]
    | cons x xs =>
      rw [chunksGo, chunkLens, if_neg (by simp; omega)]
      simp only [List.map_cons, List.length_take]
      rw [ih ((x :: xs).drop C)
        (by simp only [List.length_drop, List.length_cons] at h ⊢; omega)]
      rw [List.length_drop]

theorem chunksOf_lens {C : Nat} (hC : 0 < C) (bs : List Nat) :
    (chunksOf C bs).map List.length = chunkLens C bs.length := by
  unfold chunksOf
  rw [if_neg (by omega)]
  exact chunksGo_lens hC _ _ le_rfl

theorem chunkLens_split {C : Nat} (hC : 0 < C) :
    ∀ S, 0 < S → chunkLens C S =
      List.replicate ((S + C - 1) / C - 1) C ++ [S - C * ((S + C - 1) / C - 1)] := by
  intro S
  induction S using Nat.strong_induction_on with
  | _ S ih =>
    intro hS
    rw [chunkLens, if_neg (by omega)]
    by_cases hSC : S ≤ C
    · have hdrop : S - C = 0 := by omega
      have hmin : min C S = S := by omega
      have hn : (S + C - 1) / C = 1 := by
        have h1 : S + C - 1 = (S - 1) + C := by omega
        rw [h1, Nat.add_div_right _ hC, Nat.div_eq_of_lt (by omega)]
      rw [hdrop, hmin, hn, chunkLens]
      simp
    · have hCS : C < S := by omega
      have ihS := ih (S - C) (by omega) (by omega)
      have hmin : min C S = C := by omega
      have hn : (S + C - 1) / C = (S - C + C - 1) / C + 1 := by
        have h1 : S + C - 1 = (S - C + C - 1) + C := by omega
        rw [h1, Nat.add_div_right _ hC]
      rw [hmin, ihS, hn]
      have hn'1 : 1 ≤ (S - C + C - 1) / C := by
        rw [Nat.one_le_div_iff hC]
        omega
      have hub : C * ((S - C + C - 1) / C) ≤ S - 1 := by
        have hd := Nat.div_mul_le_self (S - C + C - 1) C
        have h2 : S - C + C - 1 = S - 1 := by omega
        calc C * ((S - C + C - 1) / C) = (S - C + C - 1) / C * C := Nat.mul_comm _ _
          _ ≤ S - C + C - 1 := hd
          _ = S - 1 := by rw [h2]
      have hmul : C * ((S - C + C - 1) / C) = C * ((S - C + C - 1) / C - 1) + C := by
        have h1 : (S - C + C - 1) / C = ((S - C + C - 1) / C - 1) + 1 := by omega
        calc C * ((S - C + C - 1) / C) = C * (((S - C + C - 1) / C - 1) + 1) := by rw [← h1]
          _ = C * ((S - C + C - 1) / C - 1) + C := by rw [Nat.mul_succ]
      have hrep : List.replicate ((S - C + C - 1) / C + 1 - 1) C
          = C :: List.replicate ((S - C + C - 1) / C - 1) C := by
        have h1 : (S - C + C - 1) / C + 1 - 1 = ((S - C + C - 1) / C - 1) + 1 := by omega
        rw [h1, List.replicate_succ]
      rw [hrep]
      have hxy : S - C - C * ((S - C + C - 1) / C - 1)
          = S - C * ((S - C + C - 1) / C + 1 - 1) := by
        have h1 : (S - C + C - 1) / C + 1 - 1 = (S - C + C - 1) / C := by omega
        rw [h1]
        omega
      rw [hxy]
      simp

theorem chunkLens_length {C : Nat} (hC : 0 < C) (S : Nat) :
    (chunkLens C S).length = (S + C - 1) / C := by
  by_cases hS : S = 0
  · subst hS
    have hz : (0 + C - 1) / C = 0 := Nat.div_eq_of_lt (by omega)
    rw [hz, chunkLens]
    simp
  · rw [chunkLens_split hC S (by omega)]
    simp only [List.length_append, List.length_replicate, List.length_cons, List.length_nil]
    have h1 : 1 ≤ (S + C - 1) / C := by
      rw [Nat.one_le_div_iff hC]
      omega
    omega

theorem chunkLens_bounds {C : Nat} (hC : 0 < C) :
    ∀ S x, x ∈ chunkLens C S → 0 < x ∧ x ≤ C := by
  intro S
  induction S using Nat.strong_induction_on with
  | _ S ih =>
    intro x hx
    rw [chunkLens] at hx
    by_cases h0 : C = 0 ∨ S = 0
    · rw [if_pos h0] at hx
      simp at hx
    · rw [if_neg h0] at hx
      rcases List.mem_cons.mp hx with he | ht
      · subst he
        constructor
        · omega
        · omega
      · exact ih (S - C) (by omega) x ht

theorem scanBundle_spec {md5 : List Nat → String} {st : ScanState} {b : Bundle}
    {st2 : ScanState} (h : scanBundle md5 st b = some st2) :
    st2.total = st.total + (if isCandidate b then 1 else 0) ∧
    ∃ dv de, dv + de = (if isCandidate b then 1 else 0) ∧
      st2.valid = st.valid + dv ∧ st2.errors = st.errors + de ∧
      st2.entries.length = st.entries.length + dv := by
  unfold scanBundle at h
  by_cases hc : isCandidate b = true
  · rw [if_neg (by simp [hc])] at h
    by_cases hvv : validate_metadata b = []
    · rw [if_pos hvv] at h
      cases hn : normalize md5 b with
      | none => rw [hn] at h; cases h
      | some r =>
        rw [hn] at h
        cases h
        refine ⟨by simp [hc], 1, 0, by simp [hc], by simp, by simp, by simp⟩
    · rw [if_neg hvv] at h
      cases h
      refine ⟨by simp [hc], 0, 1, by simp [hc], by simp, by simp, by simp⟩
  · rw [if_pos (by simp [hc])] at h
    cases h
    refine ⟨by simp [hc], 0, 0, by simp [hc], by simp, by simp, by simp⟩

theorem scanApps_spec {md5 : List Nat → String} :
    ∀ (bs : List Bundle) (st st2 : ScanState), scanApps md5 st bs = some st2 →
      st2.total = st.total + countApps bs ∧
      ∃ dv de, dv + de = countApps bs ∧ st2.valid = st.valid + dv ∧
        st2.errors = st.errors + de ∧ st2.entries.length = st.entries.length + dv := by
  intro bs
  induction bs with
  | nil =>
    intro st st2 h
    cases h
    exact ⟨by simp [countApps], 0, 0, by simp [countApps], by simp, by simp, by simp⟩
  | cons b bs ih =>
    intro st st2 h
    unfold scanApps at h
    cases hb : scanBundle md5 st b with
    | none => rw [hb] at h; cases h
    | some stm =>
      rw [hb] at h
      obtain ⟨ht1, dv1, de1, hs1, hv1, he1, hl1⟩ := scanBundle_spec hb
      obtain ⟨ht2, dv2, de2, hs2, hv2, he2, hl2⟩ := ih stm st2 h
      have hcnt : countApps (b :: bs) = countApps bs + (if isCandidate b then 1 else 0) := by
        simp [countApps, List.countP_cons]
      exact ⟨by omega, dv1 + dv2, de1 + de2, by omega, by omega, by omega, by omega⟩

theorem scanRepos_spec {md5 : List Nat → String} :
    ∀ (rs : List (List Bundle)) (st st2 : ScanState), scanRepos md5 st rs = some st2 →
      st2.total = st.total + countRepos rs ∧
      ∃ dv de, dv + de = countRepos rs ∧ st2.valid = st.valid + dv ∧
        st2.errors = st.errors + de ∧ st2.entries.length = st.entries.length + dv := by
  intro rs
  induction rs with
  | nil =>
    intro st st2 h
    cases h
    exact ⟨by simp [countRepos], 0, 0, by simp [countRepos], by simp, by simp, by simp⟩
  | cons r rs ih =>
    intro st st2 h
    unfold scanRepos at h
    cases hr : scanApps md5 st r with
    | none => rw [hr] at h; cases h
    | some stm =>
      rw [hr] at h
      obtain ⟨ht1, dv1, de1, hs1, hv1, he1, hl1⟩ := scanApps_spec r st stm hr
      obtain ⟨ht2, dv2, de2, hs2, hv2, he2, hl2⟩ := ih stm st2 h
      have hcnt : countRepos (r :: rs) = countApps r + countRepos rs := by
        simp [countRepos]
      exact ⟨by omega, dv1 + dv2, de1 + de2, by omega, by omega, by omega, by omega⟩

theorem scanTree_spec {md5 : List Nat → String} :
    ∀ (t : List (List (List Bundle))) (st st2 : ScanState), scanTree md5 st t = some st2 →
      st2.total = st.total + countTree t ∧
      ∃ dv de, dv + de = countTree t ∧ st2.valid = st.valid + dv ∧
        st2.errors = st.errors + de ∧ st2.entries.length = st.entries.length + dv := by
  intro t
  induction t with
  | nil =>
    intro st st2 h
    cases h
    exact ⟨by simp [countTree], 0, 0, by simp [countTree], by simp, by simp, by simp⟩
  | cons d ds ih =>
    intro st st2 h
    unfold scanTree at h
    cases hd : scanRepos md5 st d with
    | none => rw [hd] at h; cases h
    | some stm =>
      rw [hd] at h
      obtain ⟨ht1, dv1, de1, hs1, hv1, he1, hl1⟩ := scanRepos_spec d st stm hd
      obtain ⟨ht2, dv2, de2, hs2, hv2, he2, hl2⟩ := ih stm st2 h
      have hcnt : countTree (d :: ds) = countRepos d + countTree ds := by
        simp [countTree]
      exact ⟨by omega, dv1 + dv2, de1 + de2, by omega, by omega, by omega, by omega⟩

theorem runScan_spec {md5 : List Nat → String} {tree : List (List (List Bundle))}
    {st : ScanState} (h : runScan md5 tree = some st) :
    st.total = countTree tree ∧ st.total = st.valid + st.errors ∧
    st.entries.length = st.valid := by
  obtain ⟨ht, dv, de, hs, hv, he, hl⟩ := scanTree_spec tree ⟨0, 0, 0, []⟩ st h
  simp only [List.length_nil] at ht hv he hl
  refine ⟨by omega, by omega, by omega⟩

theorem insertKeyed_length (p : String × Jobj) :
    ∀ l : List (String × Jobj), (insertKeyed p l).length = l.length + 1 := by
  intro l
  induction l with
  | nil => rfl
  | cons q qs ih =>
    unfold insertKeyed
    split
    · simp
    · simp [ih]

theorem foldr_insertKeyed_length (keyed : List (String × Jobj)) :
    (keyed.foldr insertKeyed []).length = keyed.length := by
  induction keyed with
  | nil => rfl
  | cons p ps ih =>
    simp only [List.foldr_cons, insertKeyed_length, ih, List.length_cons]

theorem mapM_option_length {α β : Type} (f : α → Option β) :
    ∀ (l : List α) (l2 : List β), l.mapM f = some l2 → l2.length = l.length := by
  intro l
  induction l with
  | nil =>
    intro l2 h
    simp only [List.mapM_nil, Option.pure_def, Option.some.injEq] at h
    simp [← h]
  | cons a l ih =>
    intro l2 h
    simp only [List.mapM_cons, Option.pure_def, Option.bind_eq_bind] at h
    cases hf : f a with
    | none => rw [hf] at h; simp at h
    | some b =>
      rw [hf] at h
      simp only [Option.some_bind] at h
      cases hl : l.mapM f with
      | none => rw [hl] at h; simp at h
      | some tl =>
        rw [hl] at h
        simp only [Option.some_bind, Option.some.injEq] at h
        rw [← h]
        simp [ih tl hl]

theorem sortCatalog_length {apps cat : List Jobj} (h : sortCatalog apps = some cat) :
    cat.length = apps.length := by
  unfold sortCatalog at h
  cases hk : apps.mapM (fun a => (nameKeyOf a).map (fun k => (k, a))) with
  | none => rw [hk] at h; cases h
  | some keyed =>
    rw [hk] at h
    simp only [Option.pure_def, Option.bind_eq_bind, Option.some_bind, Option.some.injEq] at h
    rw [← h]
    simp only [List.length_map, foldr_insertKeyed_length]
    exact mapM_option_length _ apps keyed hk

theorem splitFile_sizes {sha : List Nat → String} {C : Nat} {name : String}
    {bs : List Nat} {parts : List (String × List Nat)} {mf : SplitManifest}
    (h : splitFile sha C name bs = some (parts, mf)) :
    parts.map Prod.snd = chunksOf C bs ∧
    parts.map (fun p => p.2.length) = (chunksOf C bs).map List.length ∧
    mf.parts.map PartEntry.size = (chunksOf C bs).map List.length ∧
    mf.originalSize = bs.length ∧
    mf.originalSha256 = sha bs ∧
    parts.length = (chunksOf C bs).length ∧
    mf.parts.length = (chunksOf C bs).length := by
  simp only [splitFile] at h
  split at h
  · cases h
  · cases h
    refine ⟨?_, ?_, ?_, rfl, rfl, ?_, ?_⟩
    · rw [List.map_map]
      exact List.enum_map_snd (chunksOf C bs)
    · conv_rhs => rw [← List.enum_map_snd (chunksOf C bs)]
      rw [List.map_map, List.map_map]
      rfl
    · conv_rhs => rw [← List.enum_map_snd (chunksOf C bs)]
      rw [List.map_map, List.map_map, List.map_map]
      rfl
    · rw [List.length_map, List.enum_length]
    · rw [List.length_map, List.length_map, List.enum_length]

/-! ### Claim theorems -/

/-- C1: for every file strictly larger than the threshold T that the splitter
processes and splits, concatenating the emitted chunk files in numeric order
reproduces the original byte sequence exactly (pure byte-range partitioning),
the hash of the concatenation equals the originalSha256 recorded in the
emitted manifest, and the sizes listed under parts sum to originalSize, which
is the byte count of the original file. -/
theorem splitter_roundtrip (sha : List Nat → String) (C T : Nat) (name : String)
    (bs : List Nat) (parts : List (String × List Nat)) (mf : SplitManifest)
    (hC : 0 < C) (_hT : T < bs.length)
    (h : splitFile sha C name bs = some (parts, mf)) :
    (parts.map Prod.snd).flatten = bs ∧
    sha ((parts.map Prod.snd).flatten) = mf.originalSha256 ∧
    (mf.parts.map PartEntry.size).sum = mf.originalSize ∧
    mf.originalSize = bs.length := by
  obtain ⟨hsnd, _, hsizes, hos, hsha, _, _⟩ := splitFile_sizes h
  have hflat : (parts.map Prod.snd).flatten = bs := by
    rw [hsnd]
    exact chunksOf_flatten hC bs
  refine ⟨hflat, ?_, ?_, hos⟩
  · rw [hflat, hsha]
  · rw [hsizes, hos, ← List.length_flatten, chunksOf_flatten hC bs]

/-- C1 witness: a five-byte file with threshold 3 and chunk size 2. -/
theorem splitter_roundtrip_witness :
    (([("f.part00", [1, 2]), ("f.part01", [3, 4]), ("f.part02", [5])].map
        (Prod.snd (α := String))).flatten = [1, 2, 3, 4, 5]) ∧
    md5W (([("f.part00", [1, 2]), ("f.part01", [3, 4]), ("f.part02", [5])].map
        (Prod.snd (α := String))).flatten) = "5" ∧
    (([⟨"f.part00", "2", 2⟩, ⟨"f.part01", "2", 2⟩,
        (⟨"f.part02", "1", 1⟩ : PartEntry)].map PartEntry.size).sum = 5) ∧
    (5 : Nat) = [1, 2, 3, 4, 5].length :=
  splitter_roundtrip md5W 2 3 "f" [1, 2, 3, 4, 5]
    [("f.part00", [1, 2]), ("f.part01", [3, 4]), ("f.part02", [5])]
    ⟨"f", "5", 5, [⟨"f.part00", "2", 2⟩, ⟨"f.part01", "2", 2⟩, ⟨"f.part02", "1", 1⟩]⟩
    (by norm_num) (by norm_num) (by rfl)

/-- C2: a file of size S strictly over the threshold T, split with chunk size
C < T, yields exactly ceil(S / C) parts; every part except the last has size
exactly C; the last part has size S - C*(parts-1), which is positive and at
most C.  In particular a 230 MiB file with 90 MiB chunks splits into parts of
90, 90 and 50 MiB. -/
theorem splitter_chunk_count (sha : List Nat → String) (C T : Nat) (name : String)
    (bs : List Nat) (parts : List (String × List Nat)) (mf : SplitManifest)
    (hC : 0 < C) (hCT : C < T) (hT : T < bs.length)
    (h : splitFile sha C name bs = some (parts, mf)) :
    (parts.length = (bs.length + C - 1) / C ∧
     mf.parts.length = (bs.length + C - 1) / C ∧
     parts.map (fun p => p.2.length)
       = List.replicate ((bs.length + C - 1) / C - 1) C
           ++ [bs.length - C * ((bs.length + C - 1) / C - 1)] ∧
     0 < bs.length - C * ((bs.length + C - 1) / C - 1) ∧
     bs.length - C * ((bs.length + C - 1) / C - 1) ≤ C) ∧
    (splitFile md5W (90 * 2 ^ 20) "sandstorm-0.tar.xz" (List.replicate (230 * 2 ^ 20) 0)).map
        (fun pm => pm.1.map (fun p => p.2.length))
      = some [90 * 2 ^ 20, 90 * 2 ^ 20, 50 * 2 ^ 20] := by
  have hS : 0 < bs.length := by omega
  obtain ⟨hsnd, hlensEq, hsizes, hos, hsha, hplen, hmlen⟩ := splitFile_sizes h
  have hlens := chunksOf_lens hC bs
  have hsplitEq := chunkLens_split hC bs.length hS
  have hcl : (chunkLens C bs.length).length = (bs.length + C - 1) / C :=
    chunkLens_length hC bs.length
  have hclast : bs.length - C * ((bs.length + C - 1) / C - 1) ∈ chunkLens C bs.length := by
    rw [hsplitEq]
    exact List.mem_append_right _ (List.mem_singleton.mpr rfl)
  obtain ⟨hpos, hle⟩ := chunkLens_bounds hC bs.length _ hclast
  constructor
  · refine ⟨?_, ?_, ?_, hpos, hle⟩
    · rw [hplen, ← List.length_map (chunksOf C bs) List.length, hlens, hcl]
    · rw [hmlen, ← List.length_map (chunksOf C bs) List.length, hlens, hcl]
    · rw [hlensEq, hlens, hsplitEq]
  · have hS2 : (0 : Nat) < 230 * 2 ^ 20 := by norm_num
    have hC2 : (0 : Nat) < 90 * 2 ^ 20 := by norm_num
    have hEx : chunkLens (90 * 2 ^ 20) (230 * 2 ^ 20)
        = [90 * 2 ^ 20, 90 * 2 ^ 20, 50 * 2 ^ 20] := by
      rw [chunkLens_split hC2 _ hS2]
      decide
    have hEx2 : (chunksOf (90 * 2 ^ 20) (List.replicate (230 * 2 ^ 20) 0)).map List.length
        = [90 * 2 ^ 20, 90 * 2 ^ 20, 50 * 2 ^ 20] := by
      rw [chunksOf_lens hC2, List.length_replicate, hEx]
    have hlen3 : (chunksOf (90 * 2 ^ 20) (List.replicate (230 * 2 ^ 20) 0)).length = 3 := by
      have hlm := congrArg List.length hEx2
      rw [List.length_map] at hlm
      exact hlm.trans rfl
    have hsp : ∃ pm, splitFile md5W (90 * 2 ^ 20) "sandstorm-0.tar.xz"
        (List.replicate (230 * 2 ^ 20) 0) = some pm := by
      simp only [splitFile]
      rw [if_neg (by rw [hlen3]; norm_num)]
      exact ⟨_, rfl⟩
    obtain ⟨⟨parts0, mf0⟩, hspEq⟩ := hsp
    obtain ⟨_, hlq, _, _, _, _, _⟩ := splitFile_sizes hspEq
    rw [hspEq, Option.map_some', hlq, hEx2]

/-- C2 witness: the five-byte file split in two-byte chunks gives three
parts of sizes 2, 2 and 1. -/
theorem splitter_chunk_count_witness :
    (([("f.part00", [1, 2]), ("f.part01", [3, 4]),
        ("f.part02", [5])].length : Nat) = ([1, 2, 3, 4, 5].length + 2 - 1) / 2 ∧
     ([⟨"f.part00", "2", 2⟩, ⟨"f.part01", "2", 2⟩,
        (⟨"f.part02", "1", 1⟩ : PartEntry)].length : Nat) = ([1, 2, 3, 4, 5].length + 2 - 1) / 2 ∧
     [("f.part00", [1, 2]), ("f.part01", [3, 4]), ("f.part02", [5])].map
        (fun p => p.2.length)
       = List.replicate (([1, 2, 3, 4, 5].length + 2 - 1) / 2 - 1) 2
           ++ [[1, 2, 3, 4, 5].length - 2 * (([1, 2, 3, 4, 5].length + 2 - 1) / 2 - 1)] ∧
     0 < [1, 2, 3, 4, 5].length - 2 * (([1, 2, 3, 4, 5].length + 2 - 1) / 2 - 1) ∧
     [1, 2, 3, 4, 5].length - 2 * (([1, 2, 3, 4, 5].length + 2 - 1) / 2 - 1) ≤ 2) ∧
    (splitFile md5W (90 * 2 ^ 20) "sandstorm-0.tar.xz" (List.replicate (230 * 2 ^ 20) 0)).map
        (fun pm => pm.1.map (fun p => p.2.length))
      = some [90 * 2 ^ 20, 90 * 2 ^ 20, 50 * 2 ^ 20] :=
  splitter_chunk_count md5W 2 3 "f" [1, 2, 3, 4, 5]
    [("f.part00", [1, 2]), ("f.part01", [3, 4]), ("f.part02", [5])]
    ⟨"f", "5", 5, [⟨"f.part00", "2", 2⟩, ⟨"f.part01", "2", 2⟩, ⟨"f.part02", "1", 1⟩]⟩
    (by norm_num) (by norm_num) (by norm_num) (by rfl)

/-- C4: after assembly and splitting, the publish verifier re-walks the whole
output tree excluding version-control metadata.  When any file strictly
exceeds the threshold it aborts publishing with a nonzero status before any
commit or push of the publish tree, having reported every offending file with
its size; when no file exceeds the threshold publishing proceeds (status
zero, commit and push as the run flags dictate). -/
theorem publish_verifier_gate (dryRun : Bool) (files : List PubFile) (hasChanges : Bool) :
    ((∃ f ∈ files, f.underGit = false ∧ MAX_FILE_SIZE < f.size) →
      (publishVerify dryRun files hasChanges).exitCode = 1 ∧
      (publishVerify dryRun files hasChanges).committed = false ∧
      (publishVerify dryRun files hasChanges).pushed = false ∧
      ∀ f ∈ files, f.underGit = false → MAX_FILE_SIZE < f.size →
        (f.path, f.size) ∈ (publishVerify dryRun files hasChanges).reported) ∧
    ((∀ f ∈ files, f.underGit = false → f.size ≤ MAX_FILE_SIZE) →
      (publishVerify dryRun files hasChanges).exitCode = 0 ∧
      (publishVerify dryRun files hasChanges).reported = [] ∧
      (publishVerify dryRun files hasChanges).committed = hasChanges ∧
      (publishVerify dryRun files hasChanges).pushed = (hasChanges && !dryRun)) := by
  constructor
  · rintro ⟨f, hf, hg, hs⟩
    have hmem : f ∈ oversizedOf files :=
      List.mem_filter.mpr ⟨hf, by simp [hg, hs]⟩
    have hpos : 0 < (oversizedOf files).length :=
      List.length_pos.mpr (List.ne_nil_of_mem hmem)
    unfold publishVerify
    rw [if_pos hpos]
    refine ⟨rfl, rfl, rfl, ?_⟩
    intro g hg1 hg2 hg3
    exact List.mem_map.mpr ⟨g, List.mem_filter.mpr ⟨hg1, by simp [hg2, hg3]⟩, rfl⟩
  · intro hall
    have hempty : oversizedOf files = [] := by
      unfold oversizedOf
      rw [List.filter_eq_nil_iff]
      intro f hf
      have := hall f hf
      cases hug : f.underGit with
      | true => simp [hug]
      | false =>
        have hsz := this hug
        simp [hug]
        omega
    unfold publishVerify
    rw [hempty]
    simp

/-- C4 witness: one staged tree with an oversized file aborts and reports it;
one with only small files proceeds. -/
theorem publish_verifier_gate_witness :
    ((publishVerify false [⟨"big.bin", MAX_FILE_SIZE + 1, false⟩] true).exitCode = 1 ∧
     ("big.bin", MAX_FILE_SIZE + 1) ∈
       (publishVerify false [⟨"big.bin", MAX_FILE_SIZE + 1, false⟩] true).reported) ∧
    (publishVerify false [⟨"ok.bin", 7, false⟩] true).exitCode = 0 := by
  constructor
  · obtain ⟨h1, _, _, h4⟩ :=
      (publish_verifier_gate false [⟨"big.bin", MAX_FILE_SIZE + 1, false⟩] true).1
        ⟨⟨"big.bin", MAX_FILE_SIZE + 1, false⟩, by simp, rfl, by simp⟩
    exact ⟨h1, h4 ⟨"big.bin", MAX_FILE_SIZE + 1, false⟩ (by simp) rfl (by simp)⟩
  · exact ((publish_verifier_gate false [⟨"ok.bin", 7, false⟩] true).2
      (by
        intro f hf hg
        simp at hf
        rw [hf]
        norm_num [MAX_FILE_SIZE])).1

/-- C3: when any bundle fails validation (the error counter is nonzero after
the scan), the aggregation run exits with failure and writes neither
`src/apps.json` nor `apps/index.json`, regardless of mode; conversely, any
written catalog output implies the scan completed with exactly zero
errors. -/
theorem aggregation_error_gate (md5 : List Nat → String) (inp : BuildInput) :
    (∀ st, runScan md5 inp.tree = some st → 0 < st.errors →
      (buildStore md5 inp).exitCode = 1 ∧
      (buildStore md5 inp).wroteSrcAppsJson = false ∧
      (buildStore md5 inp).wroteIndexJson = false) ∧
    ((buildStore md5 inp).wroteSrcAppsJson = true ∨
        (buildStore md5 inp).wroteIndexJson = true →
      ∃ st, runScan md5 inp.tree = some st ∧ st.errors = 0) := by
  constructor
  · intro st hscan herr
    simp only [buildStore, hscan]
    rw [if_pos herr]
    exact ⟨rfl, rfl, rfl⟩
  · intro hw
    cases hscan : runScan md5 inp.tree with
    | none =>
      simp only [buildStore, hscan] at hw
      simp at hw
    | some st0 =>
      by_cases he : 0 < st0.errors
      · simp only [buildStore, hscan] at hw
        rw [if_pos he] at hw
        simp at hw
      · exact ⟨st0, rfl, by omega⟩

/-- C3 witness: a run over a tree holding one invalid bundle exits with
status 1 and writes no catalog files. -/
theorem aggregation_error_gate_witness :
    (buildStore md5W ⟨true, [[[bundleMiss]]], false, false, true⟩).exitCode = 1 ∧
    (buildStore md5W ⟨true, [[[bundleMiss]]], false, false, true⟩).wroteSrcAppsJson = false ∧
    (buildStore md5W ⟨true, [[[bundleMiss]]], false, false, true⟩).wroteIndexJson = false :=
  (aggregation_error_gate md5W ⟨true, [[[bundleMiss]]], false, false, true⟩).1
    ((runScan md5W [[[bundleMiss]]]).getD ⟨0, 0, 0, []⟩) rfl (by decide)

/-- C9 counterexample: the claim says a dry run creates or modifies nothing
in the working tree, but a dry run whose packages root directory is absent
creates that directory (build-store.sh lines 144-147 run before the dry-run
check) while still exiting successfully. -/
theorem dry_run_mkdir_cex :
    (⟨false, [], true, false, false⟩ : BuildInput).dryRun = true ∧
    (buildStore md5W ⟨false, [], true, false, false⟩).createdPackagesDir = true ∧
    (buildStore md5W ⟨false, [], true, false, false⟩).exitCode = 0 :=
  ⟨rfl, rfl, rfl⟩

/-- C9 (amended): in dry-run mode, provided the scan completes, the tool
validates only and writes no catalog output; the only working-tree mutation
is creating the packages root directory when it is absent; and it exits with
success status iff the validation error count is zero. -/
theorem dry_run_frame (md5 : List Nat → String) (inp : BuildInput) (st : ScanState)
    (hdry : inp.dryRun = true) (hscan : runScan md5 inp.tree = some st) :
    (buildStore md5 inp).wroteSrcAppsJson = false ∧
    (buildStore md5 inp).wroteIndexJson = false ∧
    (buildStore md5 inp).createdPackagesDir = !inp.packagesDirExists ∧
    ((buildStore md5 inp).exitCode = 0 ↔ st.errors = 0) := by
  simp only [buildStore, hscan, hdry]
  by_cases he : 0 < st.errors
  · rw [if_pos he]
    refine ⟨rfl, rfl, rfl, ?_⟩
    constructor
    · intro h0
      cases h0
    · intro h0
      omega
  · rw [if_neg he]
    refine ⟨by simp, by simp, by simp, ?_⟩
    simp only [if_true]
    constructor
    · intro _
      omega
    · intro _
      trivial

/-- C9 witness: a dry run over the concrete scan tree (which contains an
invalid bundle) writes nothing and exits with failure. -/
theorem dry_run_frame_witness :
    (buildStore md5W ⟨true, scanTreeW, true, false, true⟩).wroteSrcAppsJson = false ∧
    (buildStore md5W ⟨true, scanTreeW, true, false, true⟩).wroteIndexJson = false ∧
    (buildStore md5W ⟨true, scanTreeW, true, false, true⟩).createdPackagesDir = !true ∧
    ((buildStore md5W ⟨true, scanTreeW, true, false, true⟩).exitCode = 0 ↔
      ((runScan md5W scanTreeW).getD ⟨0, 0, 0, []⟩).errors = 0) :=
  dry_run_frame md5W ⟨true, scanTreeW, true, false, true⟩
    ((runScan md5W scanTreeW).getD ⟨0, 0, 0, []⟩) rfl rfl

/-- C10: after a completed scan, TOTAL = VALID + ERRORS; TOTAL counts exactly
the non-hidden directories holding a metadata file (hidden directories and
directories without metadata are counted in neither); each valid bundle
contributes exactly one collected catalog entry, so the catalog entry count
equals VALID, and the sorted catalog written from it keeps that count. -/
theorem scan_counter_invariant (md5 : List Nat → String)
    (tree : List (List (List Bundle))) (st : ScanState)
    (h : runScan md5 tree = some st) :
    st.total = st.valid + st.errors ∧
    st.total = countTree tree ∧
    st.entries.length = st.valid ∧
    (∀ cat, sortCatalog st.entries = some cat → cat.length = st.valid) := by
  obtain ⟨h1, h2, h3⟩ := runScan_spec h
  refine ⟨h2, h1, h3, ?_⟩
  intro cat hc
  rw [sortCatalog_length hc, h3]

/-- C10 witness: the concrete scan tree gives TOTAL 2 = VALID 1 + ERRORS 1,
counting neither the hidden directory nor the one without metadata. -/
theorem scan_counter_invariant_witness :
    ((runScan md5W scanTreeW).getD ⟨0, 0, 0, []⟩).total
        = ((runScan md5W scanTreeW).getD ⟨0, 0, 0, []⟩).valid
          + ((runScan md5W scanTreeW).getD ⟨0, 0, 0, []⟩).errors ∧
    ((runScan md5W scanTreeW).getD ⟨0, 0, 0, []⟩).total = countTree scanTreeW ∧
    ((runScan md5W scanTreeW).getD ⟨0, 0, 0, []⟩).entries.length
        = ((runScan md5W scanTreeW).getD ⟨0, 0, 0, []⟩).valid ∧
    (∀ cat, sortCatalog ((runScan md5W scanTreeW).getD ⟨0, 0, 0, []⟩).entries = some cat →
      cat.length = ((runScan md5W scanTreeW).getD ⟨0, 0, 0, []⟩).valid) :=
  scan_counter_invariant md5W scanTreeW ((runScan md5W scanTreeW).getD ⟨0, 0, 0, []⟩) rfl

/-- C5: for a parsed bundle the validator evaluates every check without
short-circuiting, reporting one distinct error line per distinct failure: any
two distinct failing required fields both appear, with distinct messages; a
required string field that strips to empty fails unless it is codeLink, and
codeLink may be the empty string; an unparseable metadata file reports
exactly one error and skips the remaining checks. -/
theorem validator_completeness :
    (∀ b : Bundle, b.rawMeta = none →
      validate_metadata b = [b.dirPath ++ ": metadata.json is not valid JSON"]) ∧
    (∀ (b : Bundle) (m : Jobj) (f g : String), b.rawMeta = some m →
      f ∈ REQUIRED_FIELDS → g ∈ REQUIRED_FIELDS → f ≠ g →
      fieldOk m f = false → fieldOk m g = false →
      fieldErr b f ∈ validate_metadata b ∧ fieldErr b g ∈ validate_metadata b ∧
        fieldErr b f ≠ fieldErr b g) ∧
    (∀ m : Jobj, m.lookup "codeLink" = some (JVal.jstr "") →
      fieldOk m "codeLink" = true) ∧
    (∀ (m : Jobj) (f s : String), f ≠ "codeLink" → m.lookup f = some (JVal.jstr s) →
      trimStr s = "" → fieldOk m f = false) := by
  refine ⟨?_, ?_, ?_, ?_⟩
  · intro b h
    unfold validate_metadata
    rw [h]
  · intro b m f g hm hf hg hfg hof hog
    have hmem : ∀ x, x ∈ REQUIRED_FIELDS → fieldOk m x = false →
        fieldErr b x ∈ validate_metadata b := by
      intro x hx hox
      unfold validate_metadata
      rw [hm]
      apply List.mem_append_left
      apply List.mem_append_left
      exact List.mem_map_of_mem _ (List.mem_filter.mpr ⟨hx, by simp [hox]⟩)
    refine ⟨hmem f hf hof, hmem g hg hog, ?_⟩
    intro heq
    exact hfg (strApp_cancel_left heq)
  · intro m h
    unfold fieldOk
    rw [h]
    simp
  · intro m f s hne hl hts
    unfold fieldOk
    rw [hl]
    simp [hne, hts]

/-- C5 witness: an unparseable bundle reports exactly one error; a bundle
missing appId and name reports both field errors distinctly; an empty
codeLink passes while an all-whitespace name fails. -/
theorem validator_completeness_witness :
    validate_metadata bundleNoParse
      = [bundleNoParse.dirPath ++ ": metadata.json is not valid JSON"] ∧
    (fieldErr bundleMiss "appId" ∈ validate_metadata bundleMiss ∧
     fieldErr bundleMiss "name" ∈ validate_metadata bundleMiss ∧
     fieldErr bundleMiss "appId" ≠ fieldErr bundleMiss "name") ∧
    fieldOk metaW "codeLink" = true ∧
    fieldOk [("name", JVal.jstr " ")] "name" = false :=
  ⟨validator_completeness.1 bundleNoParse rfl,
   validator_completeness.2.1 bundleMiss metaMiss "appId" "name" rfl
     (by decide) (by decide) (by decide) (by decide) (by decide),
   validator_completeness.2.2.1 metaW rfl,
   validator_completeness.2.2.2 [("name", JVal.jstr " ")] "name" " "
     (by decide) rfl (by decide)⟩

/-- C6: imageId is the digest of the chosen icon bytes joined by a dot with
the file extension; the svg icon is preferred over the png one when both
exist; the id depends only on the icon content and format, never on the
bundle directory, so byte-identical icons give identical imageIds, and icons
with different digests give different imageIds. -/
theorem image_id_content_addressed (md5 : List Nat → String) :
    (∀ b1 b2 : Bundle, b1.hasIconSvg = b2.hasIconSvg → b1.hasIconPng = b2.hasIconPng →
      b1.svgBytes = b2.svgBytes → b1.pngBytes = b2.pngBytes →
      image_id md5 b1 = image_id md5 b2) ∧
    (∀ b : Bundle, b.hasIconSvg = true →
      image_id md5 b = md5 b.svgBytes ++ "." ++ "svg") ∧
    (∀ (b1 b2 : Bundle) (x y : List Nat) (e : String),
      chooseIcon b1 = some (x, e) → chooseIcon b2 = some (y, e) →
      md5 x ≠ md5 y → image_id md5 b1 ≠ image_id md5 b2) := by
  refine ⟨?_, ?_, ?_⟩
  · intro b1 b2 h1 h2 h3 h4
    simp only [image_id, chooseIcon, h1, h2, h3, h4]
  · intro b hsvg
    simp only [image_id, chooseIcon, hsvg, if_true]
  · intro b1 b2 x y e hc1 hc2 hne heq
    apply hne
    simp only [image_id, hc1, hc2] at heq
    exact strApp_cancel_right (strApp_cancel_right heq)

/-- C6 witness: the same icon bytes in two different directories give the
same imageId; with both icons present the svg wins; the one-byte-different
icon gives a different imageId. -/
theorem image_id_content_addressed_witness :
    image_id md5W bundleW = image_id md5W bundleW2 ∧
    image_id md5W bundleBoth = md5W bundleBoth.svgBytes ++ "." ++ "svg" ∧
    image_id md5W bundleW ≠ image_id md5W bundleY :=
  ⟨(image_id_content_addressed md5W).1 bundleW bundleW2 rfl rfl rfl rfl,
   (image_id_content_addressed md5W).2.1 bundleBoth rfl,
   (image_id_content_addressed md5W).2.2 bundleW bundleY [0] [1, 2] "svg"
     rfl rfl (by decide)⟩

/-- C7 counterexample: the claim says normalization has no error conditions
once the validator has passed the bundle, but a bundle that passes every
validator check while its metadata carries a truthy non-iterable screenshots
value makes the normalizer raise a TypeError in its screenshot loop, which
aborts the whole run. -/
theorem normalizer_error_cex :
    validate_metadata bundleShots = [] ∧ normalize md5W bundleShots = none :=
  ⟨rfl, rfl⟩

/-- C7 (amended): normalization is a pure, deterministic function of the
bundle directory contents — identical contents at different directory paths
serialize to byte-identical canonical JSON, with key order fixed by the
deterministic insertion order — and it has no error condition on a validated
bundle provided its screenshots value, when present and truthy, is iterable,
and its packageId value is a string whenever an oversized artifact forces a
packageUrl. -/
theorem normalizer_determinism (md5 : List Nat → String) :
    (∀ b1 b2 : Bundle, bundleContents b1 = bundleContents b2 →
      serializedRecord md5 b1 = serializedRecord md5 b2) ∧
    (∀ (b : Bundle) (m : Jobj), b.rawMeta = some m → validate_metadata b = [] →
      screenshotsSafe m = true → packageIdSafe b m = true →
      (normalize md5 b).isSome = true) := by
  constructor
  · intro b1 b2 hc
    cases b1
    cases b2
    simp only [bundleContents, Prod.mk.injEq] at hc
    obtain ⟨h1, h2, h3, h4, h5, h6, h7, h8, h9, h10, h11⟩ := hc
    subst h1 h2 h3 h4 h5 h6 h7 h8 h9 h10 h11
    rfl
  · intro b m hm hv hss hpk
    exact normalize_isSome hm hv hss hpk

/-- C7 witness: equal contents at two directories serialize identically, and
the valid concrete bundle normalizes without error. -/
theorem normalizer_determinism_witness :
    serializedRecord md5W bundleW = serializedRecord md5W bundleW2 ∧
    (normalize md5W bundleW).isSome = true :=
  ⟨(normalizer_determinism md5W).1 bundleW bundleW2 rfl,
   (normalizer_determinism md5W).2 bundleW metaW rfl rfl rfl rfl⟩

/-- C8: for a valid bundle whose raw metadata does not hand-author
packageUrl and whose packageId is a string, the canonical record contains
packageUrl iff the package artifact exists and its size strictly exceeds the
threshold, in which case the value is RELEASES_BASE/packageId; and the asset
collector copies the artifact into the local packages store under the name
packageId exactly when the artifact exists and does not exceed the
threshold, omitting over-threshold artifacts entirely. -/
theorem packageUrl_external_gate (md5 : List Nat → String) (b : Bundle) (m r : Jobj)
    (pid : String) (hm : b.rawMeta = some m) (_hv : validate_metadata b = [])
    (hnone : m.lookup "packageUrl" = none)
    (hpid : m.lookup "packageId" = some (JVal.jstr pid))
    (hr : normalize md5 b = some r) :
    ((r.lookup "packageUrl").isSome = true ↔
        b.hasSpk = true ∧ MAX_SPK_SIZE < b.spkSize) ∧
    (b.hasSpk = true → MAX_SPK_SIZE < b.spkSize →
      r.lookup "packageUrl" = some (JVal.jstr (RELEASES_BASE ++ "/" ++ pid))) ∧
    ((collectSpk b pid).isSome = true ↔
        b.hasSpk = true ∧ b.spkSize ≤ MAX_SPK_SIZE) ∧
    (b.hasSpk = true → b.spkSize ≤ MAX_SPK_SIZE → collectSpk b pid = some pid) := by
  obtain ⟨m1, m5, ha, hp, hs⟩ := normalize_decompose hm hr
  have hpu_r : r.lookup "packageUrl" = m5.lookup "packageUrl" := by
    rw [normScreenshots_lookup hs (by decide), normDescription_lookup _ _ (by decide)]
  have h4pu : (normCreatedAt (normImageId (image_id md5 b)
      (normCategories m1))).lookup "packageUrl" = none := by
    rw [normCreatedAt_lookup _ (by decide), normImageId_lookup _ _ (by decide),
      normCategories_lookup _ (by decide), normAuthor_lookup ha (by decide), hnone]
  have h4pid : (normCreatedAt (normImageId (image_id md5 b)
      (normCategories m1))).lookup "packageId" = some (JVal.jstr pid) := by
    rw [normCreatedAt_lookup _ (by decide), normImageId_lookup _ _ (by decide),
      normCategories_lookup _ (by decide), normAuthor_lookup ha (by decide), hpid]
  have hcollect :
      ((collectSpk b pid).isSome = true ↔
        b.hasSpk = true ∧ b.spkSize ≤ MAX_SPK_SIZE) ∧
      (b.hasSpk = true → b.spkSize ≤ MAX_SPK_SIZE → collectSpk b pid = some pid) := by
    constructor
    · unfold collectSpk
      by_cases hsp : b.hasSpk = true
      · rw [if_pos hsp]
        by_cases hsz : MAX_SPK_SIZE < b.spkSize
        · rw [if_pos hsz]
          constructor
          · intro habs
            cases habs
          · intro hand
            omega
        · rw [if_neg hsz]
          constructor
          · intro _
            exact ⟨hsp, by omega⟩
          · intro _
            rfl
      · rw [if_neg hsp]
        constructor
        · intro habs
          cases habs
        · intro hand
          exact absurd hand.1 hsp
    · intro h1 h2
      unfold collectSpk
      rw [if_pos h1, if_neg (by omega)]
  by_cases hcond : b.hasSpk = true ∧ MAX_SPK_SIZE < b.spkSize
  · rw [normPackageUrl_pos hcond.1 hcond.2 h4pid] at hp
    cases hp
    have hval : r.lookup "packageUrl" = some (JVal.jstr (RELEASES_BASE ++ "/" ++ pid)) := by
      rw [hpu_r, lookup_setKey_self]
    refine ⟨?_, fun _ _ => hval, hcollect.1, hcollect.2⟩
    rw [hval]
    simp [hcond]
  · rw [normPackageUrl_neg hcond] at hp
    cases hp
    have hval : r.lookup "packageUrl" = none := by
      rw [hpu_r, h4pu]
    refine ⟨?_, ?_, hcollect.1, hcollect.2⟩
    · rw [hval]
      simp only [Option.isSome_none, Bool.false_eq_true, false_iff]
      exact hcond
    · intro h1 h2
      exact absurd ⟨h1, h2⟩ hcond

/-- C8 witness: the concrete bundle with an artifact one byte over the
threshold gets a packageUrl and no local copy. -/
theorem packageUrl_external_gate_witness :
    ((((normalize md5W bundleBig).getD []).lookup "packageUrl").isSome = true ↔
        bundleBig.hasSpk = true ∧ MAX_SPK_SIZE < bundleBig.spkSize) ∧
    (bundleBig.hasSpk = true → MAX_SPK_SIZE < bundleBig.spkSize →
      ((normalize md5W bundleBig).getD []).lookup "packageUrl"
        = some (JVal.jstr (RELEASES_BASE ++ "/" ++ "p"))) ∧
    ((collectSpk bundleBig "p").isSome = true ↔
        bundleBig.hasSpk = true ∧ bundleBig.spkSize ≤ MAX_SPK_SIZE) ∧
    (bundleBig.hasSpk = true → bundleBig.spkSize ≤ MAX_SPK_SIZE →
      collectSpk bundleBig "p" = some "p") :=
  packageUrl_external_gate md5W bundleBig metaW ((normalize md5W bundleBig).getD []) "p"
    rfl rfl rfl rfl rfl

end MelusinaStore
